import Mathlib

/-!
Verification development for `mini_bash.c`, a minimal interactive shell.

The C program is shallowly embedded here:
* C strings are modelled as `List Char` holding the characters before the
  terminating NUL byte;
* the tokenizer `parse_input`, the resolver `find_command` (with its two
  path-building loops) and the decimal formatter `int_to_string` are direct
  translations of the corresponding C functions;
* the operating system (the `access(2)` executability check, `chdir(2)`,
  `fork`/`execv`/`wait`, `getenv("HOME")`) is an oracle record `Env`;
* one iteration of the `main` loop body is the function `lineStep`
  (everything after a successful `read` of a line), `shellIter` adds the
  prompt write and the read outcomes, `runShell` folds a whole session and
  `shellStep` is the induced `Running`/`Terminated` state machine.

A C function returning `-1` for failure is modelled with `Option`
(`none` = failure).
-/

namespace MiniBash
/-- `#define MAX_ARGS 64` -/
def MAX_ARGS : Nat := 64

/-- `#define MAX_PATH 512` -/
def MAX_PATH : Nat := 512

/-- `#define BUFFER_SIZE 1024` -/
def BUFFER_SIZE : Nat := 1024

/-- `#define PROMPT "mini-bash$ "` (11 bytes, written whole each iteration). -/
def PROMPT : List Char := "mini-bash$ ".data

/-- Separator test of `parse_input`: `input[i] == ' ' || input[i] == '\t'`. -/
def isSep (c : Char) : Bool := c = ' ' || c = '\t'

/-- Worker for `parse_input`, iterating over the remaining characters of the
input.  `in_token` is the C flag of the same name, `cur` holds the characters
of the token currently being scanned (in reverse), `acc` the completed tokens
(in reverse).  Starting a new token when `argc >= MAX_ARGS - 1` completed
tokens exist returns `none` (the C `return -1`). -/
def parseGo : List Char → Bool → List Char → List (List Char) →
    Option (List (List Char))
  | [], in_token, cur, acc =>
      some (if in_token then (cur.reverse :: acc).reverse else acc.reverse)
  | c :: cs, in_token, cur, acc =>
      if isSep c then
        parseGo cs false [] (if in_token then cur.reverse :: acc else acc)
      else
        if in_token then
          parseGo cs true (c :: cur) acc
        else
          if MAX_ARGS - 1 ≤ acc.length then none
          else parseGo cs true [c] acc

/-- `parse_input`: split the NUL-terminated input into tokens on runs of
spaces and tabs; `none` models the C return value `-1` (too many arguments),
`some toks` models return value `toks.length` with `argv[i]` pointing at the
`i`-th token and `argv[argc] = NULL`. -/
def parse_input (input : List Char) : Option (List (List Char)) :=
  parseGo input false [] []

/-- The argv array just after a successful `parse_input`: index `i` holds the
`i`-th token for `i < argc`, and the `NULL` sentinel (modelled `none`) at
`argc` and beyond. -/
def argvArray (toks : List (List Char)) : Nat → Option (List Char) :=
  fun i => toks.get? i

/-- Specification tokenizer, written from the spec's words: produce the
ordered sequence of non-empty maximal runs of non-separator characters,
splitting on runs of space and tab.  `cur` holds the (reversed) characters of
the run currently open. -/
def specGo : List Char → List Char → List (List Char)
  | [], cur => if cur = [] then [] else [cur.reverse]
  | c :: cs, cur =>
      if isSep c then
        if cur = [] then specGo cs [] else cur.reverse :: specGo cs []
      else
        specGo cs (c :: cur)

/-- Specification tokenizer at the top level. -/
def specTokens (input : List Char) : List (List Char) := specGo input []

/-- The `HOME` candidate path built by `find_command`: copy `home` while
`i < MAX_PATH - 2`, append `'/'` if `i < MAX_PATH - 1`, then copy the command
name while `i < MAX_PATH - 1`; the NUL terminator is then written at index
`i ≤ MAX_PATH - 1` (the model keeps the characters before the terminator). -/
def build_home_path (home command : List Char) : List Char :=
  let p1 := home.take (MAX_PATH - 2)
  let p2 := if p1.length < MAX_PATH - 1 then p1 ++ ['/'] else p1
  p2 ++ command.take (MAX_PATH - 1 - p2.length)

/-- The `/bin` candidate path built by `find_command`: copy `"/bin/"` while
`i < MAX_PATH - 1`, then copy the command name while `i < MAX_PATH - 1`. -/
def build_bin_path (command : List Char) : List Char :=
  let p1 := "/bin/".data.take (MAX_PATH - 1)
  p1 ++ command.take (MAX_PATH - 1 - p1.length)

/-- `find_command`: resolve a bare command name.  `home` models
`getenv("HOME")` (`none` when `HOME` is undefined) and `access path` models
`access(path, X_OK) == 0`, i.e. the filesystem reports the file exists and is
executable by the current user.  The C function returns `1` and fills
`full_path` on success (`some path` here) and `0` on failure (`none`,
the `CommandNotFound` outcome). -/
def find_command (home : Option (List Char)) (access : List Char → Bool)
    (command : List Char) : Option (List Char) :=
  match home with
  | some h =>
      let hp := build_home_path h command
      if access hp then some hp
      else
        let bp := build_bin_path command
        if access bp then some bp else none
  | none =>
      let bp := build_bin_path command
      if access bp then some bp else none

/-- Fuelled helper for the `while (num > 0)` digit loop of `int_to_string`;
the fuel (always at least the remaining value, which strictly decreases) only
serves to make the recursion structural. -/
def digitsRevAux : Nat → Nat → List Char
  | _, 0 => []
  | 0, _ + 1 => []
  | fuel + 1, n + 1 =>
      Nat.digitChar ((n + 1) % 10) :: digitsRevAux fuel ((n + 1) / 10)

/-- The digit characters produced by the `while (num > 0)` loop of
`int_to_string`, least significant first (`'0' + num % 10`). -/
def digitsRev (n : Nat) : List Char := digitsRevAux n n

/-- `int_to_string`: convert an integer to its decimal string.  The C code
records the sign, negates, emits digits in reverse, appends `'-'` for
negatives, NUL-terminates and reverses the buffer in place, returning the
buffer start; the model returns the characters before the terminator. -/
def int_to_string (num : Int) : List Char :=
  let is_negative := num < 0
  let n := num.natAbs
  if n = 0 then ['0']
  else (digitsRev n ++ if is_negative then ['-'] else []).reverse

/-- Numeric value of a digit string, least significant digit first. -/
def digitsValRev : List Char → Nat
  | [] => 0
  | c :: cs => (c.toNat - 48) + 10 * digitsValRev cs

/-- Numeric value of a digit string as written (most significant first). -/
def digitsVal (s : List Char) : Nat := digitsValRev s.reverse

/-- Outcome of the fork/execv/wait sequence for one external command, as
observed by the parent:
* `forkFailed`: `fork()` returned `-1` (no child exists);
* `waitFailed`: `wait()` returned `-1`;
* `exited code`: `WIFEXITED(status)` held and `code = WEXITSTATUS(status)`
  (by construction a value in `0..255`); an `execv` failure in the child
  surfaces here as `exited 1` because the child calls `exit(1)`;
* `abnormal`: `WIFEXITED(status)` was false (e.g. killed by a signal). -/
inductive SpawnOutcome where
  | forkFailed
  | waitFailed
  | exited (code : Fin 256)
  | abnormal
  deriving DecidableEq

/-- Operating-system oracle for one shell session:
* `home` is `getenv("HOME")` (`none` when undefined);
* `access p` is `access(p, X_OK) == 0`, i.e. the filesystem reports `p`
  exists and is executable by the current user;
* `chdirEff dir cwd` is the effect of `chdir(dir)` from working directory
  `cwd`: `some cwd2` on success, `none` when `chdir` returns `-1`;
* `spawn path argv` is the observed outcome of forking and executing `path`
  with argument vector `argv`. -/
structure Env where
  home : Option (List Char)
  access : List Char → Bool
  chdirEff : List Char → List Char → Option (List Char)
  spawn : List Char → List (List Char) → SpawnOutcome

/-- Loop control after one iteration of the `while (1)` body: continue the
loop, or leave it / the process with the given process exit status. -/
inductive Ctl where
  | cont
  | halt (status : Nat)
  deriving DecidableEq

/-- Observable result of one iteration of the shell loop body: the bytes
written to stdout, the `perror` tags emitted on stderr (in order, by their
prefix string), the loop control, the working directory afterwards, and the
path passed to `execv` if a child was spawned. -/
structure IterResult where
  out : List Char
  err : List (List Char)
  ctl : Ctl
  cwd : List Char
  spawned : Option (List Char)
  deriving DecidableEq

/-- Strip the trailing newline of the bytes returned by `read`
(`if (bytes_read > 0 && input_buffer[bytes_read - 1] == '\n') bytes_read--`). -/
def stripNewline (bs : List Char) : List Char :=
  if bs.getLast? = some '\n' then bs.dropLast else bs

/-- The C string held by `input_buffer` after the NUL byte is appended: the
characters before the first NUL. -/
def cString (bs : List Char) : List Char :=
  bs.takeWhile (fun c => c ≠ Char.ofNat 0)

/-- STEP 4 to STEP 6 of the `main` loop body, for a line that tokenized to
`cmd :: args` (`argv[0] = cmd`): dispatch the builtins `exit` and `cd`,
otherwise resolve the command and fork/exec/wait, or report an unknown
command. -/
def dispatchCmd (env : Env) (cwd : List Char) (cmd : List Char)
    (args : List (List Char)) : IterResult :=
  if cmd = "exit".data then ⟨[], [], .halt 0, cwd, none⟩
  else if cmd = "cd".data then
    match args with
    | [] => ⟨"cd: missing argument\n".data, [], .cont, cwd, none⟩
    | dir :: _ =>
        match env.chdirEff dir cwd with
        | none => ⟨[], ["cd".data], .cont, cwd, none⟩
        | some cwd2 => ⟨[], [], .cont, cwd2, none⟩
  else
    match find_command env.home env.access cmd with
    | none =>
        ⟨"[".data ++ cmd ++ "]: Unknown Command\n".data, [], .cont, cwd,
          none⟩
    | some path =>
        match env.spawn path (cmd :: args) with
        | .forkFailed => ⟨[], ["fork".data], .cont, cwd, none⟩
        | .waitFailed => ⟨[], ["wait".data], .cont, cwd, some path⟩
        | .exited code =>
            ⟨"Command completed with return code: ".data ++
                int_to_string (code : Nat) ++ "\n".data, [], .cont, cwd,
              some path⟩
        | .abnormal =>
            ⟨"Command terminated abnormally\n".data, [], .cont, cwd,
              some path⟩

/-- One iteration of the `main` loop body after a successful `read` returned
the bytes `bs` (STEP 3 to STEP 6 of the source): strip the newline,
NUL-terminate, skip empty input, tokenize, then dispatch. -/
def lineStep (env : Env) (cwd : List Char) (bs : List Char) : IterResult :=
  let cs := cString (stripNewline bs)
  if cs = [] then ⟨[], [], .cont, cwd, none⟩
  else
    match parse_input cs with
    | none => ⟨"Error: Too many arguments\n".data, [], .cont, cwd, none⟩
    | some [] => ⟨[], [], .cont, cwd, none⟩
    | some (cmd :: args) => dispatchCmd env cwd cmd args

/-- What one loop iteration encounters at the prompt/read boundary:
the prompt `write` fails, `read` fails, `read` reports end-of-input, or
`read` returns the (non-empty) bytes of a line. -/
inductive Event where
  | writeErr
  | readErr
  | eof
  | line (bs : List Char)
  deriving DecidableEq

/-- One full iteration of the `while (1)` body: write the prompt (a failed
write is `perror("write"); exit(1)`), then handle the `read` outcome (a
failed read is `perror("read"); exit(1)`, end-of-input writes `"\n"` and
breaks, otherwise the line is processed by `lineStep`). -/
def shellIter (env : Env) (cwd : List Char) : Event → IterResult
  | .writeErr => ⟨[], ["write".data], .halt 1, cwd, none⟩
  | .readErr => ⟨PROMPT, ["read".data], .halt 1, cwd, none⟩
  | .eof => ⟨PROMPT ++ "\n".data, [], .halt 0, cwd, none⟩
  | .line bs =>
      let r := lineStep env cwd bs
      ⟨PROMPT ++ r.out, r.err, r.ctl, r.cwd, r.spawned⟩

/-- Result of a whole shell session: the process exit status, the full
stdout transcript, and the `perror` tags in order. -/
structure RunResult where
  status : Nat
  out : List Char
  err : List (List Char)
  deriving DecidableEq

/-- Run the shell on a finite schedule of prompt/read events; once the
events are exhausted, `read` reports end-of-input (stdin is closed), which
breaks the loop and `main` returns `0`. -/
def runShell (env : Env) (cwd : List Char) : List Event → RunResult
  | [] => ⟨0, PROMPT ++ "\n".data, []⟩
  | ev :: rest =>
      let r := shellIter env cwd ev
      match r.ctl with
      | .halt s => ⟨s, r.out, r.err⟩
      | .cont =>
          let rr := runShell env r.cwd rest
          ⟨rr.status, r.out ++ rr.out, r.err ++ rr.err⟩

/-- The Shell Loop state machine: `running cwd` is one pass through the
`while (1)` body with current working directory `cwd`; `terminated status`
is the process having left the loop (or the process) with exit status
`status`.  A terminated process takes no further steps. -/
inductive ShellSt where
  | running (cwd : List Char)
  | terminated (status : Nat)
  deriving DecidableEq

/-- One transition of the Shell Loop state machine. -/
def shellStep (env : Env) : ShellSt → Event → ShellSt
  | .terminated s, _ => .terminated s
  | .running cwd, ev =>
      match (shellIter env cwd ev).ctl with
      | .halt s => .terminated s
      | .cont => .running (shellIter env cwd ev).cwd

/-- Concrete oracle: `HOME` undefined, nothing executable, `chdir` always
fails, children always terminate abnormally. -/
def env0 : Env :=
  ⟨none, fun _ => false, fun _ _ => none, fun _ _ => .abnormal⟩

/-- Concrete oracle: `HOME` undefined, everything executable, children
always exit with code `7`. -/
def env7 : Env :=
  ⟨none, fun _ => true, fun _ _ => none, fun _ _ => .exited 7⟩

/-- A line of `MAX_ARGS` one-letter tokens (one more than `parse_input`
accepts). -/
def longLine : List Char := (List.replicate MAX_ARGS "a ".data).flatten

/-- `specGo` produces at least one token whenever a run is open, and at least
as many tokens as `specGo` with the run closed. -/
theorem specGo_length_pos (cs : List Char) (cur : List Char) (h : cur ≠ []) :
    1 ≤ (specGo cs cur).length := by
  induction cs generalizing cur with
  | nil => simp [specGo, h]
  | cons c cs ih =>
      by_cases hsep : isSep c = true
      · simp [specGo, hsep, h]
      · simpa [specGo, hsep] using ih (c :: cur) (by simp)

/-- On success, `parseGo` computes exactly what the specification tokenizer
computes (relative to the already accumulated state). -/
theorem parseGo_eq_specGo (cs : List Char) :
    ∀ (in_token : Bool) (cur : List Char) (acc : List (List Char)) out,
      (in_token = true → cur ≠ []) → (in_token = false → cur = []) →
      parseGo cs in_token cur acc = some out →
      out = acc.reverse ++ specGo cs cur := by
  induction cs with
  | nil =>
      intro in_token cur acc out h1 h0 hp
      cases in_token with
      | false =>
          simp [parseGo] at hp
          simp [specGo, h0 rfl, ← hp]
      | true =>
          simp [parseGo] at hp
          simp [specGo, h1 rfl, ← hp]
  | cons c cs ih =>
      intro in_token cur acc out h1 h0 hp
      by_cases hsep : isSep c = true
      · cases in_token with
        | false =>
            rw [parseGo, if_pos hsep, if_neg (by simp)] at hp
            have := ih false [] acc out (by simp) (fun _ => rfl) hp
            simp [specGo, hsep, h0 rfl, this]
        | true =>
            rw [parseGo, if_pos hsep, if_pos rfl] at hp
            have := ih false [] (cur.reverse :: acc) out (by simp)
              (fun _ => rfl) hp
            simp [specGo, hsep, h1 rfl, this]
      · cases in_token with
        | true =>
            rw [parseGo, if_neg hsep, if_pos rfl] at hp
            have := ih true (c :: cur) acc out (fun _ => by simp)
              (by simp) hp
            simp [specGo, hsep, this]
        | false =>
            rw [parseGo, if_neg hsep, if_neg (by simp)] at hp
            by_cases hlim : MAX_ARGS - 1 ≤ acc.length
            · simp [hlim] at hp
            · rw [if_neg hlim] at hp
              have := ih true [c] acc out (fun _ => by simp) (by simp) hp
              simpa [specGo, hsep, h0 rfl] using this

/-- `parseGo` fails exactly when the total token count (accumulated plus
those still to come per the specification tokenizer) reaches `MAX_ARGS`. -/
theorem parseGo_none_iff (cs : List Char) :
    ∀ (in_token : Bool) (cur : List Char) (acc : List (List Char)),
      (in_token = true → cur ≠ []) → (in_token = false → cur = []) →
      acc.length + (if in_token then 1 else 0) ≤ MAX_ARGS - 1 →
      (parseGo cs in_token cur acc = none ↔
        MAX_ARGS ≤ acc.length + (specGo cs cur).length) := by
  induction cs with
  | nil =>
      intro in_token cur acc h1 h0 hb
      cases in_token with
      | false =>
          have hc : cur = [] := h0 rfl
          subst hc
          simp only [MAX_ARGS] at hb ⊢
          simp [parseGo, specGo] at hb ⊢
          omega
      | true =>
          simp only [MAX_ARGS] at hb ⊢
          simp [parseGo, specGo, h1 rfl] at hb ⊢
          omega
  | cons c cs ih =>
      intro in_token cur acc h1 h0 hb
      by_cases hsep : isSep c = true
      · cases in_token with
        | false =>
            rw [parseGo, if_pos hsep, if_neg (by simp)]
            rw [specGo, if_pos hsep, if_pos (h0 rfl)]
            exact ih false [] acc (by simp) (fun _ => rfl)
              (by simp [MAX_ARGS] at hb ⊢; omega)
        | true =>
            rw [parseGo, if_pos hsep, if_pos rfl]
            rw [specGo, if_pos hsep, if_neg (h1 rfl)]
            have := ih false [] (cur.reverse :: acc) (by simp) (fun _ => rfl)
              (by simp [MAX_ARGS] at hb ⊢; omega)
            rw [this]
            simp only [List.length_cons]
            omega
      · cases in_token with
        | true =>
            rw [parseGo, if_neg hsep, if_pos rfl]
            rw [specGo, if_neg hsep]
            exact ih true (c :: cur) acc (fun _ => by simp) (by simp) hb
        | false =>
            rw [parseGo, if_neg hsep, if_neg (by simp)]
            rw [specGo, if_neg hsep]
            by_cases hlim : MAX_ARGS - 1 ≤ acc.length
            · rw [if_pos hlim]
              have hc : 1 ≤ (specGo cs (c :: cur)).length :=
                specGo_length_pos cs (c :: cur) (by simp)
              simp only [MAX_ARGS] at hlim ⊢
              exact iff_of_true (by trivial) (by omega)
            · rw [if_neg hlim]
              have := ih true [c] acc (fun _ => by simp) (by simp)
                (by simp [MAX_ARGS] at hlim hb ⊢; omega)
              simpa [h0 rfl] using this

/-- `parse_input` succeeds exactly on the specification tokenizer's output,
and fails exactly when there are `MAX_ARGS` or more tokens. -/
theorem parse_input_correct (input : List Char) :
    (∀ out, parse_input input = some out → out = specTokens input) ∧
    (parse_input input = none ↔ MAX_ARGS ≤ (specTokens input).length) := by
  constructor
  · intro out h
    simpa using parseGo_eq_specGo input false [] [] out
      (by simp) (fun _ => rfl) h
  · simpa using parseGo_none_iff input false [] []
      (by simp) (fun _ => rfl) (by simp [MAX_ARGS])

/-- Tokens produced by the specification tokenizer are non-empty and free of
separator characters. -/
theorem specGo_tokens_ok (cs : List Char) :
    ∀ (cur : List Char), (∀ c ∈ cur, isSep c = false) →
      ∀ t ∈ specGo cs cur, t ≠ [] ∧ ∀ c ∈ t, isSep c = false := by
  induction cs with
  | nil =>
      intro cur hcur t ht
      by_cases h : cur = []
      · simp [specGo, h] at ht
      · simp [specGo, h] at ht
        subst ht
        refine ⟨by simpa using h, ?_⟩
        intro c hc
        exact hcur c (by simpa using hc)
  | cons c cs ih =>
      intro cur hcur t ht
      by_cases hsep : isSep c = true
      · by_cases h : cur = []
        · rw [specGo, if_pos hsep, if_pos h] at ht
          exact ih [] (by simp) t ht
        · rw [specGo, if_pos hsep, if_neg h] at ht
          rcases List.mem_cons.mp ht with h1 | h1
          · subst h1
            refine ⟨by simpa using h, ?_⟩
            intro d hd
            exact hcur d (by simpa using hd)
          · exact ih [] (by simp) t h1
      · rw [specGo, if_neg hsep] at ht
        refine ih (c :: cur) ?_ t ht
        intro d hd
        rcases List.mem_cons.mp hd with h1 | h1
        · subst h1
          simpa using hsep
        · exact hcur d h1

/-- The fuel argument of `digitsRevAux` is irrelevant while it dominates the
remaining value. -/
theorem digitsRevAux_fuel (fuel1 : Nat) :
    ∀ fuel2 n, n ≤ fuel1 → n ≤ fuel2 →
      digitsRevAux fuel1 n = digitsRevAux fuel2 n := by
  induction fuel1 with
  | zero =>
      intro fuel2 n h1 _
      have hn : n = 0 := by omega
      subst hn
      cases fuel2 <;> rfl
  | succ fuel ih =>
      intro fuel2 n h1 h2
      cases n with
      | zero => cases fuel2 <;> rfl
      | succ m =>
          cases fuel2 with
          | zero => omega
          | succ f2 =>
              simp only [digitsRevAux]
              have hd : (m + 1) / 10 < m + 1 :=
                Nat.div_lt_self (Nat.succ_pos m) (by norm_num)
              rw [ih f2 ((m + 1) / 10) (by omega) (by omega)]

/-- Unfolding equation for `digitsRev` on a positive value. -/
theorem digitsRev_succ (n : Nat) :
    digitsRev (n + 1) =
      Nat.digitChar ((n + 1) % 10) :: digitsRev ((n + 1) / 10) := by
  have hd : (n + 1) / 10 < n + 1 :=
    Nat.div_lt_self (Nat.succ_pos n) (by norm_num)
  show digitsRevAux (n + 1) (n + 1) = _
  simp only [digitsRevAux]
  rw [digitsRevAux_fuel n ((n + 1) / 10) ((n + 1) / 10) (by omega) le_rfl]
  rfl

/-- The digit loop of `int_to_string` emits exactly the base-10 digits of
`n`, least significant first: their value is `n`, each is a decimal digit
character, and the most significant digit is nonzero. -/
theorem digitsRev_spec (n : Nat) :
    digitsValRev (digitsRev n) = n ∧
    (∀ c ∈ digitsRev n, c.isDigit = true) ∧
    (n ≠ 0 → digitsRev n ≠ [] ∧ (digitsRev n).getLast? ≠ some '0') := by
  induction n using Nat.strong_induction_on with
  | _ n ih =>
      match n with
      | 0 => simp [digitsRev, digitsRevAux, digitsValRev]
      | n + 1 =>
          have hlt : (n + 1) / 10 < n + 1 :=
            Nat.div_lt_self (Nat.succ_pos n) (by norm_num)
          obtain ⟨ihv, ihd, ihz⟩ := ih ((n + 1) / 10) hlt
          have hm : (n + 1) % 10 < 10 := Nat.mod_lt _ (by norm_num)
          have hval : (Nat.digitChar ((n + 1) % 10)).toNat - 48 = (n + 1) % 10 := by
            have h10 : ∀ m, m < 10 → (Nat.digitChar m).toNat - 48 = m := by decide
            exact h10 _ hm
          have hdig : (Nat.digitChar ((n + 1) % 10)).isDigit = true := by
            have h10 : ∀ m, m < 10 → (Nat.digitChar m).isDigit = true := by decide
            exact h10 _ hm
          refine ⟨?_, ?_, ?_⟩
          · rw [digitsRev_succ, digitsValRev, hval, ihv]
            omega
          · intro c hc
            rw [digitsRev_succ] at hc
            rcases List.mem_cons.mp hc with h | h
            · rw [h]; exact hdig
            · exact ihd c h
          · intro _
            rw [digitsRev_succ]
            refine ⟨by simp, ?_⟩
            by_cases hq : (n + 1) / 10 = 0
            · have hz10 : (n + 1) % 10 ≠ 0 := by omega
              have h10 : ∀ m, m < 10 → m ≠ 0 → Nat.digitChar m ≠ '0' := by
                decide
              rw [hq]
              simpa [digitsRev, digitsRevAux, List.getLast?] using
                h10 _ hm hz10
            · obtain ⟨hne, hlast⟩ := ihz hq
              obtain ⟨x, xs, hx⟩ := List.exists_cons_of_ne_nil hne
              rw [hx] at hlast ⊢
              rw [List.getLast?_cons_cons]
              exact hlast

/-- Unfolding: the loop body on an empty line (after newline stripping and
NUL-termination) only re-prompts. -/
theorem lineStep_empty (env : Env) (cwd bs : List Char)
    (h0 : cString (stripNewline bs) = []) :
    lineStep env cwd bs = ⟨[], [], .cont, cwd, none⟩ := by
  unfold lineStep
  rw [if_pos h0]

/-- Unfolding: the loop body when tokenization fails. -/
theorem lineStep_parse_none (env : Env) (cwd bs : List Char)
    (hp : parse_input (cString (stripNewline bs)) = none) :
    lineStep env cwd bs =
      ⟨"Error: Too many arguments\n".data, [], .cont, cwd, none⟩ := by
  have h0 : cString (stripNewline bs) ≠ [] := by
    intro h
    rw [h] at hp
    simp [parse_input, parseGo] at hp
  unfold lineStep
  rw [if_neg h0, hp]

/-- Unfolding: the loop body when tokenization yields no tokens. -/
theorem lineStep_parse_nil (env : Env) (cwd bs : List Char)
    (hp : parse_input (cString (stripNewline bs)) = some []) :
    lineStep env cwd bs = ⟨[], [], .cont, cwd, none⟩ := by
  by_cases h0 : cString (stripNewline bs) = []
  · exact lineStep_empty env cwd bs h0
  · unfold lineStep
    rw [if_neg h0, hp]

/-- Unfolding: the loop body on a line that tokenizes to `cmd :: args`
dispatches on `cmd`. -/
theorem lineStep_parse_cons (env : Env) (cwd bs cmd : List Char)
    (args : List (List Char))
    (hp : parse_input (cString (stripNewline bs)) = some (cmd :: args)) :
    lineStep env cwd bs = dispatchCmd env cwd cmd args := by
  have h0 : cString (stripNewline bs) ≠ [] := by
    intro h
    rw [h] at hp
    simp [parse_input, parseGo] at hp
  unfold lineStep
  rw [if_neg h0, hp]

/-- The dispatcher on the `exit` builtin: break out of the loop. -/
theorem dispatchCmd_exit (env : Env) (cwd : List Char)
    (args : List (List Char)) :
    dispatchCmd env cwd "exit".data args = ⟨[], [], .halt 0, cwd, none⟩ := by
  unfold dispatchCmd
  rw [if_pos rfl]

/-- The dispatcher never breaks out of the loop on any first token other
than `exit`. -/
theorem dispatchCmd_ctl_of_ne (env : Env) (cwd cmd : List Char)
    (args : List (List Char)) (hexit : cmd ≠ "exit".data) :
    (dispatchCmd env cwd cmd args).ctl = Ctl.cont := by
  unfold dispatchCmd
  rw [if_neg hexit]
  repeat' split
  all_goals rfl

/-- Every iteration of the loop body either continues the loop or leaves it
via the `exit` builtin with status `0`. -/
theorem lineStep_ctl_cases (env : Env) (cwd bs : List Char) :
    (lineStep env cwd bs).ctl = Ctl.cont ∨
      (lineStep env cwd bs).ctl = Ctl.halt 0 := by
  by_cases h0 : cString (stripNewline bs) = []
  · rw [lineStep_empty env cwd bs h0]
    exact Or.inl rfl
  · rcases hp : parse_input (cString (stripNewline bs)) with _ | (_ | ⟨cmd, args⟩)
    · rw [lineStep_parse_none env cwd bs hp]
      exact Or.inl rfl
    · rw [lineStep_parse_nil env cwd bs hp]
      exact Or.inl rfl
    · rw [lineStep_parse_cons env cwd bs cmd args hp]
      by_cases hexit : cmd = "exit".data
      · subst hexit
        rw [dispatchCmd_exit]
        exact Or.inr rfl
      · exact Or.inl (dispatchCmd_ctl_of_ne env cwd cmd args hexit)

/-- The loop body halts the loop exactly when the line tokenizes with first
token `exit`, and then with status `0`. -/
theorem lineStep_halt_iff (env : Env) (cwd bs : List Char) (s : Nat) :
    (lineStep env cwd bs).ctl = Ctl.halt s ↔
      s = 0 ∧ ∃ args,
        parse_input (cString (stripNewline bs)) =
          some ("exit".data :: args) := by
  by_cases h0 : cString (stripNewline bs) = []
  · rw [lineStep_empty env cwd bs h0, h0]
    simp [parse_input, parseGo]
  · rcases hp : parse_input (cString (stripNewline bs)) with _ | (_ | ⟨cmd, args⟩)
    · rw [lineStep_parse_none env cwd bs hp]
      simp
    · rw [lineStep_parse_nil env cwd bs hp]
      simp
    · rw [lineStep_parse_cons env cwd bs cmd args hp]
      by_cases hexit : cmd = "exit".data
      · subst hexit
        rw [dispatchCmd_exit]
        simp only [Option.some.injEq, List.cons.injEq, true_and]
        constructor
        · intro h
          injection h with h
          exact ⟨h.symm, args, rfl⟩
        · rintro ⟨hs, _⟩
          rw [hs]
      · rw [dispatchCmd_ctl_of_ne env cwd cmd args hexit]
        simp only [Option.some.injEq, List.cons.injEq]
        constructor
        · intro h
          cases h
        · rintro ⟨_, a, ⟨hcmd, _⟩⟩
          exact absurd hcmd hexit

/-- C1: the Executable Resolver checks `${HOME}/<command>` first (only when
`HOME` is defined) and `/bin/<command>` second, accepting a candidate iff
`access(path, X_OK)` reports it exists and is executable; the first
qualifying candidate is returned (so a command present at both locations
resolves to the `HOME` copy), and if neither qualifies resolution fails
(`CommandNotFound`, the C return value `0`). -/
theorem find_command_search_order (home command : List Char)
    (access : List Char → Bool) :
    (access (build_home_path home command) = true →
      find_command (some home) access command =
        some (build_home_path home command)) ∧
    (access (build_home_path home command) = false →
      access (build_bin_path command) = true →
      find_command (some home) access command =
        some (build_bin_path command)) ∧
    (access (build_home_path home command) = false →
      access (build_bin_path command) = false →
      find_command (some home) access command = none) ∧
    (access (build_bin_path command) = true →
      find_command none access command = some (build_bin_path command)) ∧
    (access (build_bin_path command) = false →
      find_command none access command = none) := by
  refine ⟨?_, ?_, ?_, ?_, ?_⟩ <;> intro h
  · simp [find_command, h]
  · intro h2; simp [find_command, h, h2]
  · intro h2; simp [find_command, h, h2]
  · simp [find_command, h]
  · simp [find_command, h]

/-- Witness for C1: with every path executable, a defined `HOME` resolves to
the `HOME` candidate. -/
theorem find_command_search_order_witness :
    find_command (some "/home/u".data) (fun _ => true) "ls".data =
      some (build_home_path "/home/u".data "ls".data) :=
  (find_command_search_order "/home/u".data "ls".data (fun _ => true)).1 rfl

/-- Length of a `take` is at most the count taken. -/
theorem take_length_le (n : Nat) (l : List Char) : (l.take n).length ≤ n := by
  rw [List.length_take]
  exact Nat.min_le_left _ _

/-- A copy of at most `n - |p|` further characters after `p` keeps the total
within `n`. -/
theorem append_take_length_lt (p command : List Char) (n : Nat)
    (hp : p.length ≤ n) :
    (p ++ command.take (n - p.length)).length < n + 1 := by
  have h2 := take_length_le (n - p.length) command
  simp only [List.length_append]
  omega

/-- C9: for every `HOME` value and command name, the resolver's path
construction stays within the fixed maximum path length: at most
`MAX_PATH - 1` characters are written, so the NUL terminator lands at an
index `< MAX_PATH` and the buffer never overflows. -/
theorem path_construction_bounded (home command : List Char) :
    (build_home_path home command).length < MAX_PATH ∧
    (build_bin_path command).length < MAX_PATH := by
  constructor
  · have hp2 : (if (home.take (MAX_PATH - 2)).length < MAX_PATH - 1
        then home.take (MAX_PATH - 2) ++ ['/']
        else home.take (MAX_PATH - 2)).length ≤ MAX_PATH - 1 := by
      have h1 := take_length_le (MAX_PATH - 2) home
      split <;>
        simp only [List.length_append, List.length_singleton,
          MAX_PATH] at h1 ⊢ <;>
        omega
    exact append_take_length_lt _ command (MAX_PATH - 1) hp2
  · exact append_take_length_lt ("/bin/".data.take (MAX_PATH - 1)) command
      (MAX_PATH - 1) (take_length_le _ _)

/-- The dispatcher on `cd` with no argument (`argc < 2`). -/
theorem dispatchCmd_cd_nil (env : Env) (cwd : List Char) :
    dispatchCmd env cwd "cd".data [] =
      ⟨"cd: missing argument\n".data, [], .cont, cwd, none⟩ := by
  unfold dispatchCmd
  rw [if_neg (by decide), if_pos rfl]

/-- The dispatcher on `cd dir ...` when `chdir(dir)` fails: `perror("cd")`,
working directory unchanged, loop continues. -/
theorem dispatchCmd_cd_fail (env : Env) (cwd dir : List Char)
    (rest : List (List Char)) (hch : env.chdirEff dir cwd = none) :
    dispatchCmd env cwd "cd".data (dir :: rest) =
      ⟨[], ["cd".data], .cont, cwd, none⟩ := by
  unfold dispatchCmd
  rw [if_neg (by decide), if_pos rfl]
  simp [hch]

/-- The dispatcher on an unresolvable non-builtin command. -/
theorem dispatchCmd_not_found (env : Env) (cwd cmd : List Char)
    (args : List (List Char)) (hexit : cmd ≠ "exit".data)
    (hcd : cmd ≠ "cd".data)
    (hfind : find_command env.home env.access cmd = none) :
    dispatchCmd env cwd cmd args =
      ⟨"[".data ++ cmd ++ "]: Unknown Command\n".data, [], .cont, cwd,
        none⟩ := by
  unfold dispatchCmd
  rw [if_neg hexit, if_neg hcd, hfind]

/-- The dispatcher on a resolved command whose child exits normally. -/
theorem dispatchCmd_exited (env : Env) (cwd cmd path : List Char)
    (args : List (List Char)) (code : Fin 256) (hexit : cmd ≠ "exit".data)
    (hcd : cmd ≠ "cd".data)
    (hfind : find_command env.home env.access cmd = some path)
    (hspawn : env.spawn path (cmd :: args) = .exited code) :
    dispatchCmd env cwd cmd args =
      ⟨"Command completed with return code: ".data ++
          int_to_string (code : Nat) ++ "\n".data, [], .cont, cwd,
        some path⟩ := by
  unfold dispatchCmd
  rw [if_neg hexit, if_neg hcd, hfind]
  simp [hspawn]

/-- The dispatcher on a resolved command whose child is terminated
abnormally. -/
theorem dispatchCmd_abnormal (env : Env) (cwd cmd path : List Char)
    (args : List (List Char)) (hexit : cmd ≠ "exit".data)
    (hcd : cmd ≠ "cd".data)
    (hfind : find_command env.home env.access cmd = some path)
    (hspawn : env.spawn path (cmd :: args) = .abnormal) :
    dispatchCmd env cwd cmd args =
      ⟨"Command terminated abnormally\n".data, [], .cont, cwd,
        some path⟩ := by
  unfold dispatchCmd
  rw [if_neg hexit, if_neg hcd, hfind]
  simp [hspawn]

/-- C2: the Tokenizer splits every input line into the ordered sequence of
non-empty tokens separated by runs of spaces and tabs (no empty tokens from
leading, trailing or repeated separators, and no separator character inside
a token); `"  ls  -la  "` tokenizes to exactly `["ls", "-la"]`, and the
argv array carries the `NULL` sentinel at index `argc`. -/
theorem tokenizer_splits_on_blank_runs (input : List Char) :
    (∀ toks, parse_input input = some toks →
      toks = specTokens input ∧
      (∀ t ∈ toks, t ≠ [] ∧ ∀ c ∈ t, isSep c = false) ∧
      argvArray toks toks.length = none) ∧
    parse_input "  ls  -la  ".data = some ["ls".data, "-la".data] := by
  refine ⟨?_, by decide⟩
  intro toks hp
  have heq := (parse_input_correct input).1 toks hp
  refine ⟨heq, ?_, ?_⟩
  · rw [heq]
    exact fun t ht => specGo_tokens_ok input [] (by simp) t ht
  · simp [argvArray]

/-- Witness for C2 at the spec's own example line. -/
theorem tokenizer_splits_on_blank_runs_witness :
    ["ls".data, "-la".data] = specTokens "  ls  -la  ".data ∧
    (∀ t ∈ ["ls".data, "-la".data], t ≠ [] ∧ ∀ c ∈ t, isSep c = false) ∧
    argvArray ["ls".data, "-la".data] ["ls".data, "-la".data].length =
      none :=
  (tokenizer_splits_on_blank_runs "  ls  -la  ".data).1 _ (by decide)

/-- C3: tokenization fails (`parse_input` returns `-1`, modelled `none`)
exactly when the line holds `MAX_ARGS` or more tokens — the C check rejects
the line as soon as token number `MAX_ARGS` starts, leaving no partial
result — and the loop iteration then writes only
`"Error: Too many arguments\n"`, dispatches nothing (no builtin, no child),
and continues. -/
theorem too_many_arguments (env : Env) (cwd bs : List Char) :
    (parse_input (cString (stripNewline bs)) = none ↔
      MAX_ARGS ≤ (specTokens (cString (stripNewline bs))).length) ∧
    (parse_input (cString (stripNewline bs)) = none →
      lineStep env cwd bs =
        ⟨"Error: Too many arguments\n".data, [], Ctl.cont, cwd, none⟩) :=
  ⟨(parse_input_correct _).2, fun hp => lineStep_parse_none env cwd bs hp⟩

/-- Witness for C3 on a line of `MAX_ARGS` tokens. -/
theorem too_many_arguments_witness :
    lineStep env0 [] longLine =
      ⟨"Error: Too many arguments\n".data, [], Ctl.cont, [], none⟩ :=
  (too_many_arguments env0 [] longLine).2 (by decide)

/-- C4: `cd` with no argument reports exactly `cd: missing argument` and
leaves the working directory unchanged; `cd dir` on `chdir` failure reports
the OS error via `perror("cd")`, leaves the working directory unchanged,
and the loop continues in both cases. -/
theorem cd_builtin_errors (env : Env) (cwd bs : List Char) :
    (parse_input (cString (stripNewline bs)) = some ["cd".data] →
      lineStep env cwd bs =
        ⟨"cd: missing argument\n".data, [], Ctl.cont, cwd, none⟩) ∧
    (∀ dir rest,
      parse_input (cString (stripNewline bs)) =
        some ("cd".data :: dir :: rest) →
      env.chdirEff dir cwd = none →
      lineStep env cwd bs = ⟨[], ["cd".data], Ctl.cont, cwd, none⟩) := by
  constructor
  · intro hp
    rw [lineStep_parse_cons env cwd bs "cd".data [] hp]
    exact dispatchCmd_cd_nil env cwd
  · intro dir rest hp hch
    rw [lineStep_parse_cons env cwd bs "cd".data (dir :: rest) hp]
    exact dispatchCmd_cd_fail env cwd dir rest hch

/-- Witness for C4: `cd` alone, and `cd /nonexistent` with a failing
`chdir`. -/
theorem cd_builtin_errors_witness :
    lineStep env0 [] "cd\n".data =
      ⟨"cd: missing argument\n".data, [], Ctl.cont, [], none⟩ ∧
    lineStep env0 [] "cd /nonexistent\n".data =
      ⟨[], ["cd".data], Ctl.cont, [], none⟩ :=
  ⟨(cd_builtin_errors env0 [] "cd\n".data).1 (by decide),
    (cd_builtin_errors env0 [] "cd /nonexistent\n".data).2
      "/nonexistent".data [] (by decide) rfl⟩

/-- C7: when the child of an external command runs to completion, the
parent emits exactly one status line: `Command completed with return
code: <N>` with `N = WEXITSTATUS` (a value in `0..255`) on normal exit, and
`Command terminated abnormally` otherwise, recovering no signal number. -/
theorem launcher_status_report (env : Env) (cwd bs cmd path : List Char)
    (args : List (List Char))
    (hp : parse_input (cString (stripNewline bs)) = some (cmd :: args))
    (hexit : cmd ≠ "exit".data) (hcd : cmd ≠ "cd".data)
    (hfind : find_command env.home env.access cmd = some path) :
    (∀ code : Fin 256, env.spawn path (cmd :: args) = .exited code →
      lineStep env cwd bs =
        ⟨"Command completed with return code: ".data ++
            int_to_string (code : Nat) ++ "\n".data, [], Ctl.cont, cwd,
          some path⟩) ∧
    (env.spawn path (cmd :: args) = .abnormal →
      lineStep env cwd bs =
        ⟨"Command terminated abnormally\n".data, [], Ctl.cont, cwd,
          some path⟩) := by
  constructor
  · intro code hspawn
    rw [lineStep_parse_cons env cwd bs cmd args hp]
    exact dispatchCmd_exited env cwd cmd path args code hexit hcd hfind
      hspawn
  · intro hspawn
    rw [lineStep_parse_cons env cwd bs cmd args hp]
    exact dispatchCmd_abnormal env cwd cmd path args hexit hcd hfind hspawn

/-- Witness for C7: a child exiting with code `7` yields exactly
`Command completed with return code: 7`. -/
theorem launcher_status_report_witness :
    lineStep env7 [] "ls\n".data =
      ⟨"Command completed with return code: 7\n".data, [], Ctl.cont, [],
        some "/bin/ls".data⟩ := by
  rw [(launcher_status_report env7 [] "ls\n".data "ls".data "/bin/ls".data
    [] (by decide) (by decide) (by decide) (by decide)).1 7 rfl]
  decide

/-- C8: a non-builtin first token that resolves at neither `${HOME}` nor
`/bin` makes the shell print exactly `[<name>]: Unknown Command` with the
original name, spawn no child, and keep the loop running. -/
theorem unknown_command_report (env : Env) (cwd bs cmd : List Char)
    (args : List (List Char))
    (hp : parse_input (cString (stripNewline bs)) = some (cmd :: args))
    (hexit : cmd ≠ "exit".data) (hcd : cmd ≠ "cd".data)
    (hfind : find_command env.home env.access cmd = none) :
    lineStep env cwd bs =
      ⟨"[".data ++ cmd ++ "]: Unknown Command\n".data, [], Ctl.cont, cwd,
        none⟩ ∧
    shellStep env (.running cwd) (.line bs) = .running cwd := by
  have h1 : lineStep env cwd bs =
      ⟨"[".data ++ cmd ++ "]: Unknown Command\n".data, [], Ctl.cont, cwd,
        none⟩ := by
    rw [lineStep_parse_cons env cwd bs cmd args hp]
    exact dispatchCmd_not_found env cwd cmd args hexit hcd hfind
  refine ⟨h1, ?_⟩
  simp [shellStep, shellIter, h1]

/-- Witness for C8 at the spec's example name `doesnotexist123`. -/
theorem unknown_command_report_witness :
    lineStep env0 [] "doesnotexist123\n".data =
      ⟨"[doesnotexist123]: Unknown Command\n".data, [], Ctl.cont, [],
        none⟩ ∧
    shellStep env0 (.running []) (.line "doesnotexist123\n".data) =
      .running [] := by
  have h := unknown_command_report env0 [] "doesnotexist123\n".data
    "doesnotexist123".data [] (by decide) (by decide) (by decide)
    (by decide)
  exact ⟨h.1.trans (by decide), h.2⟩

/-- C5 (amended): the Shell Loop's `Terminated` state is absorbing; the loop
transitions from `Running` to `Terminated` with status `0` on end-of-input
and on a line whose first token is `exit` (trailing arguments ignored), and
— beyond the claim — also with status `1` on a prompt-write or read failure;
these are the only `Running → Terminated` transitions. -/
theorem shell_loop_termination (env : Env) :
    (∀ s ev, shellStep env (.terminated s) ev = .terminated s) ∧
    (∀ cwd, shellStep env (.running cwd) .eof = .terminated 0) ∧
    (∀ cwd bs args,
      parse_input (cString (stripNewline bs)) =
        some ("exit".data :: args) →
      shellStep env (.running cwd) (.line bs) = .terminated 0) ∧
    (∀ cwd ev s, shellStep env (.running cwd) ev = .terminated s →
      (s = 0 ∧ (ev = .eof ∨ ∃ bs args, ev = .line bs ∧
          parse_input (cString (stripNewline bs)) =
            some ("exit".data :: args))) ∨
      (s = 1 ∧ (ev = .writeErr ∨ ev = .readErr))) := by
  refine ⟨fun s ev => rfl, fun cwd => rfl, ?_, ?_⟩
  · intro cwd bs args hp
    have hctl : (lineStep env cwd bs).ctl = Ctl.halt 0 :=
      (lineStep_halt_iff env cwd bs 0).mpr ⟨rfl, args, hp⟩
    simp [shellStep, shellIter, hctl]
  · intro cwd ev s hstep
    cases ev with
    | writeErr =>
        simp [shellStep, shellIter] at hstep
        exact Or.inr ⟨hstep.symm, Or.inl rfl⟩
    | readErr =>
        simp [shellStep, shellIter] at hstep
        exact Or.inr ⟨hstep.symm, Or.inr rfl⟩
    | eof =>
        simp [shellStep, shellIter] at hstep
        exact Or.inl ⟨hstep.symm, Or.inl rfl⟩
    | line bs =>
        rcases lineStep_ctl_cases env cwd bs with hc | hc
        · simp [shellStep, shellIter, hc] at hstep
        · obtain ⟨_, args, hp⟩ := (lineStep_halt_iff env cwd bs 0).mp hc
          simp [shellStep, shellIter, hc] at hstep
          exact Or.inl ⟨hstep.symm, Or.inr ⟨bs, args, rfl, hp⟩⟩

/-- Witness for C5: `exit now` terminates with status `0`. -/
theorem shell_loop_termination_witness :
    shellStep env0 (.running []) (.line "exit now\n".data) =
      .terminated 0 :=
  (shell_loop_termination env0).2.2.1 [] "exit now\n".data ["now".data]
    (by decide)

/-- Counterexample to C5 as stated: a failed `read` also moves the loop
from `Running` to `Terminated` (with status `1`), although it is neither an
`exit` line nor end-of-input, so `exit`/end-of-input are not the only
termination transitions. -/
theorem shell_loop_termination_cex :
    shellStep env0 (.running []) .readErr = .terminated 1 ∧
    Event.readErr ≠ Event.eof ∧ (1 : Nat) ≠ 0 :=
  ⟨rfl, by decide, by decide⟩

/-- C6 (amended): every run of the shell in which no prompt-write or read
failure occurs exits with status `0`, whatever the external commands
report; a child's exit status is only ever reported textually, never
propagated as the shell's exit code. -/
theorem shell_exit_status_zero (env : Env) (cwd : List Char)
    (events : List Event)
    (hio : ∀ ev ∈ events, ev ≠ Event.writeErr ∧ ev ≠ Event.readErr) :
    (runShell env cwd events).status = 0 := by
  induction events generalizing cwd with
  | nil => rfl
  | cons ev rest ih =>
      obtain ⟨hw, hr⟩ := hio ev (List.mem_cons_self _ _)
      have hrest : ∀ e ∈ rest, e ≠ Event.writeErr ∧ e ≠ Event.readErr :=
        fun e he => hio e (List.mem_cons_of_mem _ he)
      cases ev with
      | writeErr => exact absurd rfl hw
      | readErr => exact absurd rfl hr
      | eof => rfl
      | line bs =>
          rcases hc : (lineStep env cwd bs).ctl with _ | s
          · simp [runShell, shellIter, hc]
            exact ih _ hrest
          · rcases lineStep_ctl_cases env cwd bs with h | h
            · rw [hc] at h
              cases h
            · rw [hc] at h
              injection h with hs
              subst hs
              simp [runShell, shellIter, hc]

/-- Witness for C6: a run with one external command and end-of-input exits
with status `0`. -/
theorem shell_exit_status_zero_witness :
    (runShell env0 [] [Event.line "ls\n".data, Event.eof]).status = 0 :=
  shell_exit_status_zero env0 [] [Event.line "ls\n".data, Event.eof]
    (by decide)

/-- Counterexample to C6 as stated: a run whose prompt write fails exits
with status `1`, not `0` (the `perror("write"); exit(1)` path). -/
theorem shell_exit_status_zero_cex :
    (runShell env0 [] [Event.writeErr]).status = 1 ∧ (1 : Nat) ≠ 0 :=
  ⟨rfl, by decide⟩

/-- C10: for every nonnegative integer, `int_to_string` produces the
standard base-10 decimal representation: a non-empty all-digit string whose
value is the input, with no leading zero except for the single digit of
`0` itself (the C buffer is NUL-terminated right after these characters and
the buffer start is returned). -/
theorem int_to_string_decimal (n : Nat) :
    int_to_string (n : Int) ≠ [] ∧
    (∀ c ∈ int_to_string (n : Int), c.isDigit = true) ∧
    digitsVal (int_to_string (n : Int)) = n ∧
    (n = 0 → int_to_string (n : Int) = ['0']) ∧
    ((int_to_string (n : Int)).head? = some '0' → n = 0) := by
  by_cases hn : n = 0
  · subst hn
    exact ⟨by decide, by decide, by decide, fun _ => by decide,
      fun _ => rfl⟩
  · have hneg : ¬((n : Int) < 0) := by omega
    have hform : int_to_string (n : Int) = (digitsRev n).reverse := by
      simp only [int_to_string, Int.natAbs_ofNat]
      rw [if_neg hn, if_neg hneg, List.append_nil]
    obtain ⟨hval, hdig, hz⟩ := digitsRev_spec n
    obtain ⟨hne, hlast⟩ := hz hn
    refine ⟨?_, ?_, ?_, fun h => absurd h hn, ?_⟩
    · rw [hform]
      simpa using hne
    · intro c hc
      rw [hform] at hc
      exact hdig c (List.mem_reverse.mp hc)
    · rw [hform]
      simp only [digitsVal, List.reverse_reverse]
      exact hval
    · rw [hform, List.head?_reverse]
      intro h
      exact absurd h hlast

/-- Witness for C10 at `0` and `7`. -/
theorem int_to_string_decimal_witness :
    int_to_string ((0 : Nat) : Int) = ['0'] ∧
    digitsVal (int_to_string ((7 : Nat) : Int)) = 7 :=
  ⟨(int_to_string_decimal 0).2.2.2.1 rfl, (int_to_string_decimal 7).2.2.1⟩

end MiniBash
